import Mathlib

/-!
# Verification of the data-analysis pipeline (eda.py / drawchat.py)

Shallow embedding of the data-shaping and chart-geometry core of the
repository.  Tables are modelled as lists of structured rows; machine
floats are modelled by `ℚ` (the spec's arithmetic statements are exact
decimal statements); a float `NaN` is modelled by `none` in an
`Option ℚ` cell wherever the source tests `pd.notna`.  Python's string
order (used by `sorted` on customer names) is code-point lexicographic
and is embedded below as `strLe`/`strLt` on the character lists, because
the library order on `String` does not reduce in the kernel.

Fidelity notes:
* `add_competitor_analysis`, `aggregate_customer_data` follow eda.py
  lines 98-134; `plot_customer_demand`, `plot_customer_demand_with_price`,
  `calculate_annotation_positions` and `plot_customer_business_plan`
  follow drawchat.py.
* The required-column validation of the chart entry points always passes
  in this embedding, because a structured row carries the customer, year
  and demand columns by construction and supplier cells are looked up by
  name with a `0` default; none of the claims below concerns a
  missing-column failure.
* `pandas.round(2)` is half-to-even rounding, embedded as `round2`.
-/

namespace DataAnalysis

/-! ## Code-point string order (Python's `sorted` on `str`) -/

/-- Lexicographic strictly-less on character lists, comparing Unicode
code points, as Python's `<` on `str` does. -/
def chListLt : List Char → List Char → Bool
  | [], [] => false
  | [], _ :: _ => true
  | _ :: _, [] => false
  | a :: as, b :: bs =>
    if a.toNat < b.toNat then true
    else if b.toNat < a.toNat then false
    else chListLt as bs

/-- Lexicographic less-or-equal on character lists. -/
def chListLe : List Char → List Char → Bool
  | [], _ => true
  | _ :: _, [] => false
  | a :: as, b :: bs =>
    if a.toNat < b.toNat then true
    else if b.toNat < a.toNat then false
    else chListLe as bs

def strLt (a b : String) : Bool := chListLt a.toList b.toList

def strLe (a b : String) : Bool := chListLe a.toList b.toList

theorem chListLe_total : ∀ a b, chListLe a b = true ∨ chListLe b a = true := by
  intro a
  induction a with
  | nil => intro b; left; simp [chListLe]
  | cons x xs ih =>
    intro b
    cases b with
    | nil => right; simp [chListLe]
    | cons y ys =>
      by_cases h1 : x.toNat < y.toNat
      · left; simp [chListLe, h1]
      · by_cases h2 : y.toNat < x.toNat
        · right; simp [chListLe, h1, h2]
        · rcases ih ys with h | h
          · left; simp [chListLe, h1, h2, h]
          · right; simp [chListLe, h1, h2, h]

theorem chListLe_trans :
    ∀ a b c, chListLe a b = true → chListLe b c = true → chListLe a c = true := by
  intro a
  induction a with
  | nil => intro b c _ _; simp [chListLe]
  | cons x xs ih =>
    intro b c hab hbc
    cases b with
    | nil => simp [chListLe] at hab
    | cons y ys =>
      cases c with
      | nil => simp [chListLe] at hbc
      | cons z zs =>
        simp only [chListLe] at hab hbc ⊢
        by_cases hxy : x.toNat < y.toNat
        · by_cases hyz : y.toNat < z.toNat
          · have : x.toNat < z.toNat := Nat.lt_trans hxy hyz
            simp [this]
          · by_cases hzy : z.toNat < y.toNat
            · simp [hxy, hyz, hzy] at hbc
            · have hyz' : y.toNat = z.toNat := Nat.le_antisymm (Nat.le_of_not_lt hzy) (Nat.le_of_not_lt hyz)
              have : x.toNat < z.toNat := hyz' ▸ hxy
              simp [this]
        · by_cases hyx : y.toNat < x.toNat
          · simp [hxy, hyx] at hab
          · have hxy' : x.toNat = y.toNat := Nat.le_antisymm (Nat.le_of_not_lt hyx) (Nat.le_of_not_lt hxy)
            simp only [hxy, hyx, if_false, if_true, ite_false, ite_true] at hab
            by_cases hyz : y.toNat < z.toNat
            · have : x.toNat < z.toNat := hxy' ▸ hyz
              simp [this]
            · by_cases hzy : z.toNat < y.toNat
              · simp [hyz, hzy] at hbc
              · have hxz : ¬ x.toNat < z.toNat := by omega
                have hzx : ¬ z.toNat < x.toNat := by omega
                simp only [hyz, hzy, if_false, ite_false] at hbc
                simp [hxz, hzx, ih ys zs hab hbc]

theorem chListLt_irrefl : ∀ a, chListLt a a = false := by
  intro a
  induction a with
  | nil => simp [chListLt]
  | cons x xs ih => simp [chListLt, ih]

theorem chListLt_le : ∀ a b, chListLt a b = true → chListLe a b = true := by
  intro a
  induction a with
  | nil => intro b _; simp [chListLe]
  | cons x xs ih =>
    intro b h
    cases b with
    | nil => simp [chListLt] at h
    | cons y ys =>
      simp only [chListLt] at h
      simp only [chListLe]
      by_cases h1 : x.toNat < y.toNat
      · simp [h1]
      · by_cases h2 : y.toNat < x.toNat
        · simp [h1, h2] at h
        · simp only [h1, h2, if_false, ite_false] at h ⊢
          exact ih ys h

instance strLeRelTotal : IsTotal String (fun a b => strLe a b = true) :=
  ⟨fun a b => chListLe_total a.toList b.toList⟩

instance strLeRelTrans : IsTrans String (fun a b => strLe a b = true) :=
  ⟨fun a b c => chListLe_trans a.toList b.toList c.toList⟩

/-! ## Numeric helpers: floor, ceiling and pandas `round(2)` -/

/-- Floor of a rational, via floor-division of numerator by denominator. -/
def floorQ (q : ℚ) : ℤ := Int.fdiv q.num q.den

/-- Ceiling of a rational; models Python's `math.ceil`. -/
def ceilQ (q : ℚ) : ℤ := -floorQ (-q)

theorem floorQ_eq (q : ℚ) : floorQ q = ⌊q⌋ := by
  rw [floorQ, Int.fdiv_eq_ediv _ (by exact_mod_cast Nat.zero_le _), Rat.floor_def]

theorem ceilQ_eq (q : ℚ) : ceilQ q = ⌈q⌉ := by
  rw [ceilQ, floorQ_eq, Int.floor_neg, neg_neg]

/-- Round a rational to the nearest integer, ties to even: the rounding
used by numpy/pandas (`DataFrame.round`). -/
def rintHalfEven (q : ℚ) : ℤ :=
  let f := floorQ q
  let r := q - (f : ℚ)
  if r < 1/2 then f
  else if 1/2 < r then f + 1
  else if f % 2 = 0 then f else f + 1

/-- `Series.round(2)` of pandas: round to 2 decimal places, half to even. -/
def round2 (q : ℚ) : ℚ := (rintHalfEven (q * 100) : ℚ) / 100

/-! ## eda.py: `convert_numeric_columns` — the volume cell conversion

`df['volume'].str.replace(',', '.').astype(float)`: every comma is
replaced by a dot and the result is parsed as a float; a non-numeric
string makes `astype(float)` raise.  `parseFloat` embeds Python's
`float` on the plain decimal-literal subset (optional sign, digits, at
most one dot, at least one digit), which covers every string the claims
range over; `none` models the raised `ValueError`. -/

def digitVal (c : Char) : ℕ := c.toNat - 48

def natOfDigits (cs : List Char) : ℕ := cs.foldl (fun a c => 10 * a + digitVal c) 0

/-- Split a character list at every dot (the pieces keep their order;
a list with `k` dots yields `k+1` pieces). -/
def splitDot : List Char → List (List Char)
  | [] => [[]]
  | c :: cs =>
    if c = '.' then [] :: splitDot cs
    else
      match splitDot cs with
      | [] => [[c]]
      | h :: r => (c :: h) :: r

/-- Unsigned part of the float grammar: `digits`, `digits.digits`,
`digits.` or `.digits`. -/
def parseUnsigned (cs : List Char) : Option ℚ :=
  match splitDot cs with
  | [ip] =>
    if ip ≠ [] ∧ ip.all (fun c => c.isDigit) then some ((natOfDigits ip : ℚ)) else none
  | [ip, fp] =>
    if ip ++ fp ≠ [] ∧ (ip ++ fp).all (fun c => c.isDigit) then
      some ((natOfDigits ip : ℚ) + (natOfDigits fp : ℚ) / (10 : ℚ) ^ fp.length)
    else none
  | _ => none

/-- Python `float(s)` on plain decimal literals. -/
def parseFloat (cs : List Char) : Option ℚ :=
  match cs with
  | [] => none
  | c :: rest =>
    if c = '-' then (parseUnsigned rest).map (fun q => -q)
    else if c = '+' then parseUnsigned rest
    else parseUnsigned cs

/-- One cell of the volume column under `convert_numeric_columns`:
replace every comma by a dot, then convert to float; `none` is the
raised error. -/
def convert_volume_cell (s : String) : Option ℚ :=
  parseFloat (s.toList.map (fun c => if c = ',' then '.' else c))

/-! ## eda.py: `aggregate_customer_data` -/

/-- A row of the table reaching `aggregate_customer_data`, restricted to
the columns the aggregation produces (year, mapped customer, price,
volume); the price is numeric here, as the claims require. -/
structure TxnRow where
  year : ℤ
  tdi_customer : String
  pp : ℚ
  volume : ℚ
deriving DecidableEq, Repr

def rowKey (r : TxnRow) : ℤ × String := (r.year, r.tdi_customer)

/-- Boolean `(year, customer)` lexicographic less-or-equal: the order in
which `groupby(['year', 'tdi_customer'])` emits its groups. -/
def keyLe (a b : ℤ × String) : Bool :=
  if a.1 < b.1 then true
  else if b.1 < a.1 then false
  else strLe a.2 b.2

/-- Strict `(year, customer)` lexicographic order. -/
def keyLt (a b : ℤ × String) : Bool :=
  if a.1 < b.1 then true
  else if b.1 < a.1 then false
  else strLt a.2 b.2

/-- The sorted distinct group keys of a table, as `groupby` enumerates
them. -/
def sortedUniqueKeys (t : List TxnRow) : List (ℤ × String) :=
  List.insertionSort (fun a b => keyLe a b = true) ((t.map rowKey).dedup)

/-- eda.py lines 98-113: group by `(year, tdi_customer)`, aggregate `pp`
by arithmetic mean and `volume` by sum, round both to 2 decimals.  The
empty table is returned unchanged. -/
def aggregate_customer_data (t : List TxnRow) : List TxnRow :=
  if t.isEmpty then t
  else
    (sortedUniqueKeys t).map (fun k =>
      let grp := t.filter (fun r => rowKey r = k)
      { year := k.1
        tdi_customer := k.2
        pp := round2 ((grp.map (fun r => r.pp)).sum / (grp.length : ℚ))
        volume := round2 ((grp.map (fun r => r.volume)).sum) })

/-! ## eda.py: `add_competitor_analysis` -/

/-- A row of the aggregated table entering `add_competitor_analysis`:
the four aggregation columns plus any further named numeric columns the
table may carry (`cells`), which may include columns named like
competitors. -/
structure AggRow where
  year : ℤ
  tdi_customer : String
  pp : ℚ
  volume : ℚ
  cells : List (String × ℚ)
deriving DecidableEq, Repr

/-- An output row of the Demand Synthesizer, in the fixed presentation
column order of eda.py line 131: year, customer, price, demand, volume,
then the competitor columns in list order. -/
structure DemandRow where
  year : ℤ
  tdi_customer : String
  pp : ℚ
  demand : ℚ
  volume : ℚ
  comps : List (String × ℚ)
deriving DecidableEq, Repr

/-- `df[c] = v`: overwrite column `c` when present, else append it. -/
def setCell (cells : List (String × ℚ)) (c : String) (v : ℚ) : List (String × ℚ) :=
  if (List.lookup c cells).isSome then
    cells.map (fun p => if p.1 = c then (p.1, v) else p)
  else cells ++ [(c, v)]

def getCell (cells : List (String × ℚ)) (c : String) : ℚ :=
  (List.lookup c cells).getD 0

/-- The competitor columns of a row after the zeroing loop of eda.py
lines 122-124. -/
def zeroedCells (r : AggRow) (competitor_list : List String) : List (String × ℚ) :=
  competitor_list.foldl (fun cs c => setCell cs c 0) r.cells

/-- eda.py lines 115-134: set every competitor column to `0.0`, compute
`demand = volume + sum(competitor columns)`, reorder the columns. -/
def add_competitor_analysis (t : List AggRow) (competitor_list : List String) :
    List DemandRow :=
  if t.isEmpty then []
  else
    t.map (fun r =>
      { year := r.year
        tdi_customer := r.tdi_customer
        pp := r.pp
        demand := r.volume +
          (competitor_list.map (fun c => getCell (zeroedCells r competitor_list) c)).sum
        volume := r.volume
        comps := competitor_list.map (fun c => (c, getCell (zeroedCells r competitor_list) c)) })

/-! ## drawchat.py: the chart entry points

A chart-table row carries the customer and year columns, the demand
cell (`Option`, since the source tests `pd.notna` on it), the supplier
cells and the price cells (`Option` again: a missing price column or a
`NaN` price both yield `None` in the source's `price_values`). -/

structure CRow where
  customer : String
  year : ℤ
  demand : Option ℚ
  sup : List (String × ℚ)
  price : List (String × Option ℚ)
deriving DecidableEq, Repr

def supVal (r : CRow) (s : String) : ℚ := (List.lookup s r.sup).getD 0

def priceVal (r : CRow) (p : String) : Option ℚ := (List.lookup p r.price).join

/-- The first row of the customer-filtered frame holding a given year
(`customer_df[customer_df[year_column] == year].iloc[0]`; the frame is
stably sorted by year first, so this is the first match in filter
order). -/
def rowForYear (rows : List CRow) (y : ℤ) : Option CRow :=
  rows.find? (fun r => r.year == y)

/-- The value of supplier `s` drawn at year `y` (0 when the year has no
row, as in the `values` comprehension of drawchat.py lines 92-94). -/
def supSeriesVal (rows : List CRow) (s : String) (y : ℤ) : ℚ :=
  match rowForYear rows y with
  | some r => supVal r s
  | none => 0

/-- `year_data[suppliers].sum(axis=1).iloc[0]`: the total stack height
for a year (0 when the year has no row). -/
def stackTotal (rows : List CRow) (suppliers : List String) (y : ℤ) : ℚ :=
  match rowForYear rows y with
  | some r => (suppliers.map (fun s => supVal r s)).sum
  | none => 0

/-- The demand cell of the year's row (`none` when the year has no row
or the cell is NaN). -/
def demandAt (rows : List CRow) (y : ℤ) : Option ℚ :=
  (rowForYear rows y).bind (fun r => r.demand)

/-- `numpy.ndarray.max` on a vector (the vectors in scope are indexed by
the non-empty year list; on `[]` we return 0, a case the source cannot
reach). -/
def arrMax : List ℚ → ℚ
  | [] => 0
  | h :: t => t.foldl max h

/-- One supplier of the stacked-bar loop of drawchat.py lines 88-125:
`bottom += values; max_demand = max(max_demand, bottom.max())`. -/
def stackStep (rows : List CRow) (years : List ℤ) (acc : List ℚ × ℚ) (s : String) :
    List ℚ × ℚ :=
  (List.zipWith (· + ·) acc.1 (years.map (fun y => supSeriesVal rows s y)),
   max acc.2
     (arrMax (List.zipWith (· + ·) acc.1 (years.map (fun y => supSeriesVal rows s y)))))

/-- The stacked-bar loop: running `bottom` vector and running
`max_demand`, folded over the suppliers (starting from the zero vector
and `max_demand = 0`). -/
def stackState (rows : List CRow) (suppliers : List String) (years : List ℤ) :
    List ℚ × ℚ :=
  suppliers.foldl (stackStep rows years) (years.map (fun _ => (0 : ℚ)), 0)

def maxAfterBars (rows : List CRow) (suppliers : List String) (years : List ℤ) : ℚ :=
  (stackState rows suppliers years).2

/-- One year of the 2022-2024 demand overlay of drawchat.py lines
127-146: `max_demand` is updated only when the cell is non-missing and
positive. -/
def demandStep2224 (rows : List CRow) (m : ℚ) (y : ℤ) : ℚ :=
  if y = 2022 ∨ y = 2023 ∨ y = 2024 then
    match demandAt rows y with
    | some d => if 0 < d then max m d else m
    | none => m
  else m

def maxWithDemand2224 (rows : List CRow) (years : List ℤ) (m : ℚ) : ℚ :=
  years.foldl (demandStep2224 rows) m

/-- drawchat.py lines 148-168: the 2025 demand bar updates `max_demand`
whenever the cell is non-missing. -/
def maxWithDemand2025 (rows : List CRow) (years : List ℤ) (m : ℚ) : ℚ :=
  if (2025 : ℤ) ∈ years then
    match demandAt rows 2025 with
    | some d => max m d
    | none => m
  else m

/-- The final `max_demand` of the source after bars and overlays. -/
def codeMaxDemand (rows : List CRow) (suppliers : List String) (years : List ℤ) : ℚ :=
  maxWithDemand2025 rows years (maxWithDemand2224 rows years (maxAfterBars rows suppliers years))

/-- The primary-axis outcome: limits, and the tick interval when the
axis was auto-scaled. -/
structure YAxis where
  lo : ℚ
  hi : ℚ
  tick : Option ℤ
deriving DecidableEq, Repr

/-- drawchat.py lines 178-187: a caller-supplied `demand_ylim` wins;
otherwise substitute 100 for a non-positive maximum, scale by 1.1 and
space ticks by `max(1, ceil(max_demand / 10))`. -/
def computeYAxis (demand_ylim : Option (ℚ × ℚ)) (maxDemand : ℚ) : YAxis :=
  match demand_ylim with
  | some p => ⟨p.1, p.2, none⟩
  | none =>
    ⟨0, (if 0 < maxDemand then maxDemand else 100) * (11/10),
     some (max 1 (ceilQ ((if 0 < maxDemand then maxDemand else 100) / 10)))⟩

/-- drawchat.py lines 100-122: for one segment, `none` when no numeric
label is drawn, `some b` when one is, with `b = true` for the
light-on-dark colour scheme (`value > 0.15 * total`). -/
def segmentLabel (value total : ℚ) : Option Bool :=
  if 0 < value then
    if total * (5/100) < value then some (decide (total * (15/100) < value))
    else none
  else none

/-- The label decision of every (supplier, year) segment of the chart. -/
def labelDecisions (rows : List CRow) (suppliers : List String) (years : List ℤ) :
    List (String × ℤ × Option Bool) :=
  suppliers.flatMap (fun s =>
    years.map (fun y =>
      (s, y, segmentLabel (supSeriesVal rows s y) (stackTotal rows suppliers y))))

/-- `sorted(df[customer_column].unique())` of drawchat.py line 40. -/
def availableCustomers (t : List CRow) : List String :=
  List.insertionSort (fun a b => strLe a b = true) ((t.map (fun r => r.customer)).dedup)

/-- `sorted(customer_df[year_column].unique())`. -/
def sortedUniqueYears (rows : List CRow) : List ℤ :=
  List.insertionSort (fun a b => a ≤ b) ((rows.map (fun r => r.year)).dedup)

inductive ChartError where
  | customerNotFound (available : List String)
  | noData
deriving DecidableEq, Repr

/-- The geometry a demand chart renders, as far as the claims reach:
the shared year axis, the primary y-axis and the segment labels. -/
structure ChartSpec where
  years : List ℤ
  yaxis : YAxis
  labels : List (String × ℤ × Option Bool)
deriving DecidableEq, Repr

def chartRows (df : List CRow) (customer_name : String) : List CRow :=
  df.filter (fun r => r.customer = customer_name)

def chartYears (df : List CRow) (customer_name : String) : List ℤ :=
  sortedUniqueYears (chartRows df customer_name)

/-- drawchat.py `plot_customer_demand` (lines 5-215), reduced to the
computed chart geometry.  The required-column and supplier-column checks
of lines 32-47 always pass on structured rows; the customer check of
lines 38-42 raises `customerNotFound` with the sorted distinct customer
list; the (unreachable) empty-frame and empty-year checks of lines 52
and 76 raise `noData`. -/
def plot_customer_demand (df : List CRow) (customer_name : String)
    (suppliers : List String) (demand_ylim : Option (ℚ × ℚ)) :
    Except ChartError ChartSpec :=
  if customer_name ∈ df.map (fun r => r.customer) then
    if (chartRows df customer_name).isEmpty then .error .noData
    else
      if (chartYears df customer_name).isEmpty then .error .noData
      else
        .ok ⟨chartYears df customer_name,
             computeYAxis demand_ylim
               (codeMaxDemand (chartRows df customer_name) suppliers
                 (chartYears df customer_name)),
             labelDecisions (chartRows df customer_name) suppliers
               (chartYears df customer_name)⟩
  else .error (.customerNotFound (availableCustomers df))

/-! ### The price overlay -/

/-- drawchat.py lines 445-458: per price column, the year-aligned series
with `None` for a missing year, missing column or NaN value. -/
def priceDataByColumn (rows : List CRow) (years : List ℤ) (price_columns : List String) :
    List (List (Option ℚ)) :=
  price_columns.map (fun p =>
    years.map (fun y => (rowForYear rows y).bind (fun r => priceVal r p)))

/-- The `(value, column-index)` pairs collected for one year index
(drawchat.py lines 429-432). -/
def yearPrices (cols : List (List (Option ℚ))) (yi : ℕ) : List (ℚ × ℕ) :=
  cols.enum.filterMap (fun cicol => (cicol.2.get? yi).join.map (fun v => (v, cicol.1)))

/-- The same pairs sorted ascending by value (stable, like Python's
`list.sort(key=lambda x: x[0])`). -/
def sortedYearPrices (cols : List (List (Option ℚ))) (yi : ℕ) : List (ℚ × ℕ) :=
  List.insertionSort (fun a b => a.1 ≤ b.1) (yearPrices cols yi)

/-- drawchat.py lines 423-442, one year of
`calculate_annotation_positions`: rank `i` in ascending value order gets
vertical offset `base_offset + i * spacing` with `base_offset = 25`. -/
def annotationRow (cols : List (List (Option ℚ))) (yi : ℕ) (spacing : ℚ) :
    List ((ℕ × ℕ) × ℚ) :=
  (sortedYearPrices cols yi).enum.map
    (fun ip => ((yi, ip.2.2), 25 + (ip.1 : ℚ) * spacing))

/-- drawchat.py `calculate_annotation_positions`: all years. -/
def calculate_annotation_positions (cols : List (List (Option ℚ))) (nYears : ℕ)
    (spacing : ℚ) : List ((ℕ × ℕ) × ℚ) :=
  (List.range nYears).flatMap (fun yi => annotationRow cols yi spacing)

/-- The geometry of the dual-axis chart, as far as the claims reach. -/
structure PriceChartSpec where
  years : List ℤ
  yaxis : YAxis
  positions : List ((ℕ × ℕ) × ℚ)
deriving DecidableEq, Repr

/-- drawchat.py `plot_customer_demand_with_price` (lines 217-582): same
validation, filtering and demand-axis computation as
`plot_customer_demand` (the source duplicates the code verbatim), plus
the annotation positions of the price overlay. -/
def plot_customer_demand_with_price (df : List CRow) (customer_name : String)
    (suppliers : List String) (price_columns : List String)
    (demand_ylim : Option (ℚ × ℚ)) (annotation_spacing : ℚ) :
    Except ChartError PriceChartSpec :=
  if customer_name ∈ df.map (fun r => r.customer) then
    if (chartRows df customer_name).isEmpty then .error .noData
    else
      if (chartYears df customer_name).isEmpty then .error .noData
      else
        .ok ⟨chartYears df customer_name,
             computeYAxis demand_ylim
               (codeMaxDemand (chartRows df customer_name) suppliers
                 (chartYears df customer_name)),
             calculate_annotation_positions
               (priceDataByColumn (chartRows df customer_name)
                 (chartYears df customer_name) price_columns)
               (chartYears df customer_name).length annotation_spacing⟩
  else .error (.customerNotFound (availableCustomers df))

/-! ### The business-plan range chart -/

/-- A business-plan row: year, customer and the three band columns
(`Option`, NaN cells are filled with 0 by `fillna(0)`). -/
structure BPRow where
  year : ℤ
  customer : String
  min : Option ℚ
  base : Option ℚ
  max : Option ℚ
deriving DecidableEq, Repr

/-- The rendered range chart, as far as the claims reach: per-year
`(min, base, max)` segments in year order, and the y-limit
`1.15 * max total`. -/
structure BPSpec where
  years : List ℤ
  ylim : ℚ × ℚ
  segments : List (ℤ × (ℚ × ℚ × ℚ))
deriving DecidableEq, Repr

/-- The per-year `(min, base, max)` segments of the range chart: filter
by customer, sort by year (stable), fill missing cells with 0. -/
def bpSegments (df : List BPRow) (customer_name : String) : List (ℤ × (ℚ × ℚ × ℚ)) :=
  (List.insertionSort (fun a b : BPRow => a.year ≤ b.year)
      (df.filter (fun r => r.customer = customer_name))).map
    (fun r => (r.year, (r.min.getD 0, r.base.getD 0, r.max.getD 0)))

/-- drawchat.py `plot_customer_business_plan` (lines 641-762): filter by
customer, return `None` on an empty result (lines 664-668), else sort by
year, fill NaN with 0, stack min/base/max and auto-scale the y-axis to
`1.15 * max total` (lines 758-760). -/
def plot_customer_business_plan (df : List BPRow) (customer_name : String) :
    Option BPSpec :=
  if (df.filter (fun r => r.customer = customer_name)).isEmpty then none
  else
    some ⟨(bpSegments df customer_name).map (fun p => p.1),
          (0, arrMax ((bpSegments df customer_name).map
            (fun p => p.2.1 + p.2.2.1 + p.2.2.2)) * (23/20)),
          bpSegments df customer_name⟩

/-! ## Lemmas about column assignment -/

theorem lookup_overwrite (cs : List (String × ℚ)) (c' : String) (v : ℚ) (c : String) :
    List.lookup c (cs.map (fun p => if p.1 = c' then (p.1, v) else p)) =
      (List.lookup c cs).map (fun w => if c = c' then v else w) := by
  induction cs with
  | nil => rfl
  | cons p t ih =>
    rw [List.map_cons]
    by_cases hp : p.1 = c'
    · rw [if_pos hp]
      cases hk : (c == p.1) with
      | true =>
        have hk' : c = p.1 := beq_iff_eq.mp hk
        have hcc : c = c' := hp ▸ hk'
        simp [List.lookup, hk, hcc, hp]
      | false => simp [List.lookup, hk, ih]
    · rw [if_neg hp]
      cases hk : (c == p.1) with
      | true =>
        have hk' : c = p.1 := beq_iff_eq.mp hk
        have hcc : ¬ c = c' := fun h => hp (hk' ▸ h)
        simp [List.lookup, hk, hcc]
      | false => simp [List.lookup, hk, ih]

theorem lookup_append_single (cs : List (String × ℚ)) (c c' : String) (v : ℚ)
    (habs : List.lookup c' cs = none) :
    List.lookup c (cs ++ [(c', v)]) = if c = c' then some v else List.lookup c cs := by
  induction cs with
  | nil =>
    rw [List.nil_append]
    by_cases hc : c = c'
    · have hb : (c == c') = true := beq_iff_eq.mpr hc
      simp [List.lookup, hb, hc]
    · have hb : (c == c') = false := beq_eq_false_iff_ne.mpr hc
      simp [List.lookup, hb, hc]
  | cons p t ih =>
    simp only [List.lookup] at habs
    cases hb : (c' == p.1) with
    | true => rw [hb] at habs; cases habs
    | false =>
      rw [hb] at habs
      have habs' : List.lookup c' t = none := habs
      cases hk : (c == p.1) with
      | true =>
        have hkp : c = p.1 := beq_iff_eq.mp hk
        have hcc : ¬ c = c' := fun h => (ne_of_beq_false hb) (h ▸ hkp)
        simp [List.lookup, hk, hcc]
      | false =>
        simp only [List.cons_append, List.lookup, hk]
        exact ih habs'

theorem lookup_setCell (cs : List (String × ℚ)) (c' : String) (v : ℚ) (c : String) :
    List.lookup c (setCell cs c' v) =
      if c = c' then some v else List.lookup c cs := by
  unfold setCell
  by_cases hpres : (List.lookup c' cs).isSome
  · rw [if_pos hpres, lookup_overwrite]
    by_cases hc : c = c'
    · subst hc
      rcases Option.isSome_iff_exists.mp hpres with ⟨w, hw⟩
      simp [hw]
    · cases h : List.lookup c cs <;> simp [hc, h]
  · rw [if_neg hpres]
    exact lookup_append_single cs c c' v (Option.not_isSome_iff_eq_none.mp hpres)

theorem lookup_foldl_setZero_of_not_mem (comps : List String) (cs : List (String × ℚ))
    (c : String) (hc : c ∉ comps) :
    List.lookup c (comps.foldl (fun cs c => setCell cs c 0) cs) = List.lookup c cs := by
  induction comps generalizing cs with
  | nil => rfl
  | cons a rest ih =>
    have hca : c ≠ a := fun h => hc (h ▸ List.mem_cons_self a rest)
    have hcr : c ∉ rest := fun h => hc (List.mem_cons_of_mem a h)
    simp only [List.foldl_cons]
    rw [ih (setCell cs a 0) hcr, lookup_setCell, if_neg hca]

theorem lookup_foldl_setZero (comps : List String) (cs : List (String × ℚ))
    (c : String) (hc : c ∈ comps) :
    List.lookup c (comps.foldl (fun cs c => setCell cs c 0) cs) = some 0 := by
  induction comps generalizing cs with
  | nil => cases hc
  | cons a rest ih =>
    simp only [List.foldl_cons]
    by_cases hcr : c ∈ rest
    · exact ih (setCell cs a 0) hcr
    · have hca : c = a := by
        rcases List.mem_cons.mp hc with h | h
        · exact h
        · exact absurd h hcr
      rw [lookup_foldl_setZero_of_not_mem rest (setCell cs a 0) c hcr,
        lookup_setCell, if_pos hca]

theorem getCell_foldl_setZero (comps : List String) (cs : List (String × ℚ))
    (c : String) (hc : c ∈ comps) :
    getCell (comps.foldl (fun cs c => setCell cs c 0) cs) c = 0 := by
  rw [getCell, lookup_foldl_setZero comps cs c hc]
  rfl

/-! ## C1: demand invariant of the Demand Synthesizer -/

/-- C1: every output row of `add_competitor_analysis` satisfies
`demand = volume + sum(competitor fields)` exactly, and
`demand >= volume` whenever all its competitor field values are
non-negative. -/
theorem demand_eq_volume_plus_competitors
    (t : List AggRow) (competitor_list : List String) (r : DemandRow)
    (hr : r ∈ add_competitor_analysis t competitor_list) :
    r.demand = r.volume + (r.comps.map (fun p => p.2)).sum ∧
    ((∀ p ∈ r.comps, 0 ≤ p.2) → r.volume ≤ r.demand) := by
  unfold add_competitor_analysis at hr
  split at hr
  · cases hr
  · rcases List.mem_map.mp hr with ⟨a, _, rfl⟩
    constructor
    · show a.volume + _ = a.volume + _
      rw [List.map_map]
      rfl
    · intro hnn
      have h0 : 0 ≤ (competitor_list.map (fun c =>
          getCell (zeroedCells a competitor_list) c)).sum := by
        apply List.sum_nonneg
        intro x hx
        rcases List.mem_map.mp hx with ⟨c, hc, rfl⟩
        exact hnn (c, getCell (zeroedCells a competitor_list) c)
          (List.mem_map.mpr ⟨c, hc, rfl⟩)
      show a.volume ≤ a.volume + _
      linarith

def c1Row : DemandRow := ⟨2022, "ACME", 5, 2, 2, [("wanhua", 0), ("basf", 0)]⟩

/-- Witness for C1 on a concrete one-row table. -/
theorem demand_eq_volume_plus_competitors_witness :
    c1Row.demand = c1Row.volume + (c1Row.comps.map (fun p => p.2)).sum ∧
    c1Row.volume ≤ c1Row.demand := by
  have h := demand_eq_volume_plus_competitors
    [⟨2022, "ACME", 5, 2, []⟩] ["wanhua", "basf"] c1Row
    (by norm_num [add_competitor_analysis, zeroedCells, setCell, getCell, c1Row, List.lookup]; decide)
  exact ⟨h.1, h.2 (by norm_num [c1Row])⟩

/-! ## C2: which competitor columns are overwritten -/

def c2Input : AggRow := ⟨2022, "ACME", 1, 2, [("wanhua", 5)]⟩

/-- C2 counterexample: the competitor column `wanhua` is already present
with per-row value 5, yet the synthesizer outputs 0 for it — the claim
that a present competitor column keeps its values is false. -/
theorem competitor_overwrite_cex :
    c2Input.cells = [("wanhua", 5)] ∧
    (add_competitor_analysis [c2Input] ["wanhua"]).map (fun r => r.comps) =
      [[("wanhua", 0)]] ∧
    (add_competitor_analysis [c2Input] ["wanhua"]).map (fun r => r.comps) ≠
      [[("wanhua", 5)]] := by
  refine ⟨rfl, ?_, ?_⟩ <;>
    norm_num [add_competitor_analysis, setCell, getCell, c2Input, List.lookup]

/-- C2 amended: the synthesizer sets every competitor column to `0.0`,
overwriting any values already present; a competitor column absent from
the input is created with `0.0`. -/
theorem competitor_columns_zeroed
    (t : List AggRow) (competitor_list : List String) (r : DemandRow)
    (hr : r ∈ add_competitor_analysis t competitor_list) :
    r.comps = competitor_list.map (fun c => (c, (0 : ℚ))) := by
  unfold add_competitor_analysis at hr
  split at hr
  · cases hr
  · rcases List.mem_map.mp hr with ⟨a, _, rfl⟩
    show List.map _ _ = _
    apply List.map_congr_left
    intro c hc
    rw [zeroedCells, getCell_foldl_setZero competitor_list a.cells c hc]

/-- Witness for the amended C2 on a concrete table whose input already
holds a non-zero value in the competitor column. -/
theorem competitor_columns_zeroed_witness :
    (⟨2022, "ACME", 1, 2, 2, [("wanhua", 0)]⟩ : DemandRow).comps =
      ["wanhua"].map (fun c => (c, (0 : ℚ))) :=
  competitor_columns_zeroed [c2Input] ["wanhua"] _
    (by norm_num [add_competitor_analysis, setCell, getCell, c2Input, List.lookup])

/-! ## C9: comma-decimal volume conversion -/

theorem splitDot_no_dot (l : List Char) (h : ∀ c ∈ l, c ≠ '.') : splitDot l = [l] := by
  induction l with
  | nil => rfl
  | cons c cs ih =>
    have hc : c ≠ '.' := h c (List.mem_cons_self c cs)
    have ihr := ih (fun x hx => h x (List.mem_cons_of_mem c hx))
    simp [splitDot, hc, ihr]

theorem splitDot_append (a b : List Char) (ha : ∀ c ∈ a, c ≠ '.') :
    splitDot (a ++ '.' :: b) = a :: splitDot b := by
  induction a with
  | nil => simp [splitDot]
  | cons c cs ih =>
    have hc : c ≠ '.' := ha c (List.mem_cons_self c cs)
    have ihr := ih (fun x hx => ha x (List.mem_cons_of_mem c hx))
    simp [splitDot, hc, ihr]

/-- C9: a comma-decimal digit string converts to the corresponding
decimal number; a string still non-numeric after the comma-to-dot
substitution converts to an error. -/
theorem convert_volume_comma_decimal :
    (∀ a b : List Char, a ≠ [] → b ≠ [] →
      (∀ c ∈ a, c.isDigit) → (∀ c ∈ b, c.isDigit) →
      convert_volume_cell (String.mk (a ++ ',' :: b)) =
        some ((natOfDigits a : ℚ) + (natOfDigits b : ℚ) / (10 : ℚ) ^ b.length)) ∧
    convert_volume_cell (String.mk ['a', 'b', 'c']) = none := by
  constructor
  · intro a b hane hbne hadig hbdig
    have hdigit_map : ∀ (l : List Char), (∀ c ∈ l, c.isDigit) →
        l.map (fun c => if c = ',' then '.' else c) = l := by
      intro l hl
      have hcongr : ∀ c ∈ l, (fun c => if c = ',' then '.' else c) c = id c := by
        intro c hc
        have hne : c ≠ ',' := by
          intro h
          have := hl c hc
          rw [h] at this
          exact absurd this (by decide)
        simp [hne]
      rw [List.map_congr_left hcongr, List.map_id]
    have hnodota : ∀ c ∈ a, c ≠ '.' := by
      intro c hc h
      have := hadig c hc
      rw [h] at this
      exact absurd this (by decide)
    have hnodotb : ∀ c ∈ b, c ≠ '.' := by
      intro c hc h
      have := hbdig c hc
      rw [h] at this
      exact absurd this (by decide)
    have hsplit : splitDot (a ++ '.' :: b) = [a, b] := by
      rw [splitDot_append a b hnodota, splitDot_no_dot b hnodotb]
    have hunsigned : parseUnsigned (a ++ '.' :: b) =
        some ((natOfDigits a : ℚ) + (natOfDigits b : ℚ) / (10 : ℚ) ^ b.length) := by
      rw [parseUnsigned.eq_def, hsplit]
      have hall : ((a ++ b).all (fun c => c.isDigit)) = true := by
        rw [List.all_append, Bool.and_eq_true]
        constructor <;> rw [List.all_eq_true]
        · exact hadig
        · exact hbdig
      have hne : a ++ b ≠ [] := by
        intro h
        rcases a with _ | _
        · exact hane rfl
        · cases h
      simp [hne, hall]
    rcases a with _ | ⟨c0, a'⟩
    · exact absurd rfl hane
    have hc0 : c0.isDigit := hadig c0 (List.mem_cons_self c0 a')
    have hc0m : c0 ≠ '-' := by
      intro h; rw [h] at hc0; exact absurd hc0 (by decide)
    have hc0p : c0 ≠ '+' := by
      intro h; rw [h] at hc0; exact absurd hc0 (by decide)
    show parseFloat (((c0 :: a') ++ ',' :: b).map (fun c => if c = ',' then '.' else c)) = _
    rw [List.map_append, hdigit_map (c0 :: a') hadig]
    simp only [List.map_cons, if_pos rfl, hdigit_map b hbdig]
    show parseFloat ((c0 :: a') ++ '.' :: b) = _
    rw [List.cons_append, parseFloat.eq_def]
    dsimp only
    rw [if_neg hc0m, if_neg hc0p, ← List.cons_append]
    exact hunsigned
  · decide

/-- Witness for C9: `"1,5"` converts to `3/2` and `"abc"` to an error. -/
theorem convert_volume_comma_decimal_witness :
    convert_volume_cell (String.mk ['1', ',', '5']) = some (3/2) ∧
    convert_volume_cell (String.mk ['a', 'b', 'c']) = none := by
  constructor
  · have h := convert_volume_comma_decimal.1 ['1'] ['5']
      (by decide) (by decide) (by decide) (by decide)
    rw [(by decide : natOfDigits ['1'] = 1), (by decide : natOfDigits ['5'] = 5)] at h
    simp only [List.cons_append, List.nil_append] at h
    rw [h]
    norm_num
  · exact convert_volume_comma_decimal.2

/-! ## C8: idempotency of the customer aggregation -/

theorem keyLt_irrefl (k : ℤ × String) : keyLt k k = false := by
  simp [keyLt, strLt, chListLt_irrefl]

theorem keyLt_le (a b : ℤ × String) (h : keyLt a b = true) : keyLe a b = true := by
  unfold keyLt at h
  unfold keyLe
  by_cases h1 : a.1 < b.1
  · simp [h1]
  · by_cases h2 : b.1 < a.1
    · simp [h1, h2] at h
    · simp only [h1, h2, if_false, ite_false] at h ⊢
      exact chListLt_le _ _ h

theorem filter_key_singleton :
    ∀ (t : List TxnRow), (t.map rowKey).Nodup → ∀ r₀ ∈ t,
      t.filter (fun r => rowKey r = rowKey r₀) = [r₀] := by
  intro t
  induction t with
  | nil => intro _ r₀ hr; cases hr
  | cons a t' ih =>
    intro hnd r₀ hr
    rw [List.map_cons, List.nodup_cons] at hnd
    rcases List.mem_cons.mp hr with rfl | hmem
    · rw [List.filter_cons_of_pos (by simp)]
      have hnil : t'.filter (fun r => rowKey r = rowKey r₀) = [] := by
        rw [List.filter_eq_nil_iff]
        intro r hr'
        simp only [decide_eq_true_eq]
        intro heq
        exact hnd.1 (heq ▸ List.mem_map_of_mem rowKey hr')
      rw [hnil]
    · have hne : rowKey a ≠ rowKey r₀ := by
        intro heq
        exact hnd.1 (heq ▸ List.mem_map_of_mem rowKey hmem)
      rw [List.filter_cons_of_neg (by simp [hne])]
      exact ih hnd.2 r₀ hmem

/-- C8 amended: re-aggregating a `(year, customer)`-unique table whose
price and volume are already rounded to 2 decimals and whose rows are
sorted by `(year, customer)` — i.e. any output of the aggregation —
yields the same table. -/
theorem aggregate_idempotent_on_sorted (t : List TxnRow)
    (hsort : List.Pairwise (fun a b => keyLt (rowKey a) (rowKey b) = true) t)
    (hpp : ∀ r ∈ t, round2 r.pp = r.pp)
    (hvol : ∀ r ∈ t, round2 r.volume = r.volume) :
    aggregate_customer_data t = t := by
  by_cases hE : t.isEmpty
  · rw [aggregate_customer_data, if_pos hE]
  · have hPmap : List.Pairwise (fun a b => keyLt a b = true) (t.map rowKey) :=
      List.pairwise_map.mpr hsort
    have hnd : (t.map rowKey).Nodup := by
      refine hPmap.imp ?_
      intro a b hab heq
      rw [heq, keyLt_irrefl] at hab
      cases hab
    have hsorted : List.Sorted (fun a b => keyLe a b = true) (t.map rowKey) :=
      hPmap.imp (fun h => keyLt_le _ _ h)
    rw [aggregate_customer_data, if_neg hE]
    rw [sortedUniqueKeys, List.dedup_eq_self.mpr hnd,
      List.Sorted.insertionSort_eq hsorted, List.map_map]
    conv_rhs => rw [← List.map_id t]
    apply List.map_congr_left
    intro r₀ hr₀
    have hfil : t.filter (fun r => rowKey r = rowKey r₀) = [r₀] :=
      filter_key_singleton t hnd r₀ hr₀
    have h1 : round2 r₀.pp = r₀.pp := hpp r₀ hr₀
    have h2 : round2 r₀.volume = r₀.volume := hvol r₀ hr₀
    cases r₀ with
    | mk y c p v =>
      simp only [Function.comp_apply, id_eq, hfil]
      simp only [rowKey] at h1 h2 ⊢
      simp [h1, h2]

def c8r1 : TxnRow := ⟨2023, "B", 1, 1⟩

def c8r2 : TxnRow := ⟨2022, "A", 1, 1⟩

/-- C8 counterexample: a `(year, customer)`-unique table with 2-decimal
values that is not sorted by `(year, customer)` is reordered by the
aggregation, so applying the aggregation again does not yield the same
table. -/
theorem aggregate_idempotent_cex :
    rowKey c8r1 ≠ rowKey c8r2 ∧
    round2 c8r1.pp = c8r1.pp ∧ round2 c8r1.volume = c8r1.volume ∧
    round2 c8r2.pp = c8r2.pp ∧ round2 c8r2.volume = c8r2.volume ∧
    aggregate_customer_data [c8r1, c8r2] = [c8r2, c8r1] ∧
    aggregate_customer_data [c8r1, c8r2] ≠ [c8r1, c8r2] := by
  have hround : round2 (1 : ℚ) = 1 := by
    norm_num [round2, rintHalfEven, floorQ, Int.fdiv]
  have hk1 : keyLe ((2023 : ℤ), "B") ((2022 : ℤ), "A") = false := by decide
  have hk2 : keyLe ((2022 : ℤ), "A") ((2023 : ℤ), "B") = true := by decide
  have hagg : aggregate_customer_data [c8r1, c8r2] = [c8r2, c8r1] := by
    norm_num [aggregate_customer_data, sortedUniqueKeys, rowKey, c8r1, c8r2,
      List.insertionSort, List.orderedInsert, hk1, hk2, hround]
  refine ⟨by decide, hround, hround, hround, hround, hagg, ?_⟩
  rw [hagg]
  decide

/-- Witness for the amended C8: a concrete sorted two-row table is a
fixed point of the aggregation. -/
theorem aggregate_idempotent_on_sorted_witness :
    aggregate_customer_data [c8r2, c8r1] = [c8r2, c8r1] := by
  apply aggregate_idempotent_on_sorted
  · refine List.Pairwise.cons ?_ (List.Pairwise.cons ?_ List.Pairwise.nil)
    · intro b hb
      rw [List.mem_singleton.mp hb]
      decide
    · intro b hb
      cases hb
  · intro r hr
    have hround : round2 (1 : ℚ) = 1 := by
      norm_num [round2, rintHalfEven, floorQ, Int.fdiv]
    rcases List.mem_cons.mp hr with rfl | hr'
    · exact hround
    · rcases List.mem_cons.mp hr' with rfl | hr''
      · exact hround
      · cases hr''
  · intro r hr
    have hround : round2 (1 : ℚ) = 1 := by
      norm_num [round2, rintHalfEven, floorQ, Int.fdiv]
    rcases List.mem_cons.mp hr with rfl | hr'
    · exact hround
    · rcases List.mem_cons.mp hr' with rfl | hr''
      · exact hround
      · cases hr''

/-! ## C3: `CustomerNotFoundError` carries the sorted distinct list -/

/-- C3: both chart entry points fail on an unknown customer with an
error carrying the customer column's distinct values, sorted; the list
is sorted and holds exactly the values occurring in the column. -/
theorem customer_not_found_carries_sorted_list
    (df : List CRow) (customer_name : String) (suppliers price_columns : List String)
    (demand_ylim : Option (ℚ × ℚ)) (annotation_spacing : ℚ)
    (hno : customer_name ∉ df.map (fun r => r.customer)) :
    plot_customer_demand df customer_name suppliers demand_ylim =
      .error (.customerNotFound (availableCustomers df)) ∧
    plot_customer_demand_with_price df customer_name suppliers price_columns
        demand_ylim annotation_spacing =
      .error (.customerNotFound (availableCustomers df)) ∧
    List.Sorted (fun a b => strLe a b = true) (availableCustomers df) ∧
    ∀ c, c ∈ availableCustomers df ↔ c ∈ df.map (fun r => r.customer) := by
  refine ⟨?_, ?_, ?_, ?_⟩
  · rw [plot_customer_demand, if_neg hno]
  · rw [plot_customer_demand_with_price, if_neg hno]
  · exact List.sorted_insertionSort _ _
  · intro c
    rw [availableCustomers, List.mem_insertionSort, List.mem_dedup]

def c3df : List CRow :=
  [⟨"GAMMA", 2022, none, [], []⟩, ⟨"ACME", 2022, none, [], []⟩,
   ⟨"BETA", 2023, none, [], []⟩]

/-- Witness for C3: scenario C, customer NOBODY against distinct
customers ACME, BETA, GAMMA. -/
theorem customer_not_found_witness :
    plot_customer_demand c3df "NOBODY" ["covestro"] none =
      .error (.customerNotFound ["ACME", "BETA", "GAMMA"]) ∧
    plot_customer_demand_with_price c3df "NOBODY" ["covestro"] ["pp"] none 20 =
      .error (.customerNotFound ["ACME", "BETA", "GAMMA"]) := by
  have h := customer_not_found_carries_sorted_list c3df "NOBODY" ["covestro"] ["pp"]
    none 20 (by decide)
  have hav : availableCustomers c3df = ["ACME", "BETA", "GAMMA"] := by decide
  rw [hav] at h
  exact ⟨h.1, h.2.1⟩

/-! ## C7: the range chart returns an empty result instead of raising -/

/-- C7: on a customer with zero matching rows the Range Chart Renderer
returns `none` without an error, while the demand-chart and
price-overlay entry points raise on the same condition. -/
theorem business_plan_empty_returns_none
    (bp : List BPRow) (df : List CRow) (bp_customer customer_name : String)
    (suppliers price_columns : List String) (demand_ylim : Option (ℚ × ℚ))
    (annotation_spacing : ℚ)
    (hbp : bp.filter (fun r => r.customer = bp_customer) = [])
    (hd : df.filter (fun r => r.customer = customer_name) = []) :
    plot_customer_business_plan bp bp_customer = none ∧
    plot_customer_demand df customer_name suppliers demand_ylim =
      .error (.customerNotFound (availableCustomers df)) ∧
    plot_customer_demand_with_price df customer_name suppliers price_columns
        demand_ylim annotation_spacing =
      .error (.customerNotFound (availableCustomers df)) := by
  have hno : customer_name ∉ df.map (fun r => r.customer) := by
    intro hmem
    rcases List.mem_map.mp hmem with ⟨r, hr, hcr⟩
    have hin : r ∈ df.filter (fun r => r.customer = customer_name) :=
      List.mem_filter.mpr ⟨hr, by simp [hcr]⟩
    rw [hd] at hin
    cases hin
  refine ⟨?_, ?_, ?_⟩
  · rw [plot_customer_business_plan, hbp]
    rfl
  · rw [plot_customer_demand, if_neg hno]
  · rw [plot_customer_demand_with_price, if_neg hno]

def c7bp : List BPRow := [⟨2023, "ACME", some 10, some 600, some 5⟩]

def c7df : List CRow := [⟨"ACME", 2022, none, [], []⟩]

/-- Witness for C7 on concrete one-row tables. -/
theorem business_plan_empty_returns_none_witness :
    plot_customer_business_plan c7bp "NOBODY" = none ∧
    plot_customer_demand c7df "NOBODY" ["covestro"] none =
      .error (.customerNotFound ["ACME"]) ∧
    plot_customer_demand_with_price c7df "NOBODY" ["covestro"] ["pp"] none 20 =
      .error (.customerNotFound ["ACME"]) := by
  have h := business_plan_empty_returns_none c7bp c7df "NOBODY" "NOBODY"
    ["covestro"] ["pp"] none 20 (by decide) (by decide)
  have hav : availableCustomers c7df = ["ACME"] := by decide
  rw [hav] at h
  exact h

/-! ## C5: annotation offsets increase with rank -/

instance fstLeTotal : IsTotal (ℚ × ℕ) (fun a b => a.1 ≤ b.1) :=
  ⟨fun a b => le_total a.1 b.1⟩

instance fstLeTrans : IsTrans (ℚ × ℕ) (fun a b => a.1 ≤ b.1) :=
  ⟨fun _ _ _ => le_trans⟩

/-- C5: for any year index and positive spacing, the annotation at rank
`i` of the ascending value order gets offset `25 + i * spacing`, the
offsets are strictly increasing in rank, and the ranking really is
sorted ascending by value. -/
theorem annotation_positions_increasing
    (cols : List (List (Option ℚ))) (yi : ℕ) (spacing : ℚ) (hsp : 0 < spacing) :
    (∀ (i : ℕ) (p : (ℕ × ℕ) × ℚ), (annotationRow cols yi spacing)[i]? = some p →
      p.2 = 25 + (i : ℚ) * spacing) ∧
    (∀ (i j : ℕ) (pi pj : (ℕ × ℕ) × ℚ), i < j →
      (annotationRow cols yi spacing)[i]? = some pi →
      (annotationRow cols yi spacing)[j]? = some pj → pi.2 < pj.2) ∧
    List.Sorted (fun a b : ℚ × ℕ => a.1 ≤ b.1) (sortedYearPrices cols yi) := by
  have hform : ∀ (i : ℕ) (p : (ℕ × ℕ) × ℚ),
      (annotationRow cols yi spacing)[i]? = some p →
      p.2 = 25 + (i : ℚ) * spacing := by
    intro i p hp
    rw [annotationRow, List.getElem?_map, List.getElem?_enum] at hp
    cases he : (sortedYearPrices cols yi)[i]? with
    | none => rw [he] at hp; cases hp
    | some q =>
      rw [he] at hp
      simp only [Option.map_some', Option.some.injEq] at hp
      rw [← hp]
  refine ⟨hform, ?_, List.sorted_insertionSort _ _⟩
  intro i j pi pj hij hi hj
  rw [hform i pi hi, hform j pj hj]
  have hcast : (i : ℚ) < (j : ℚ) := by exact_mod_cast hij
  have := mul_lt_mul_of_pos_right hcast hsp
  linarith

/-- Witness for C5: scenario B, prices 10.0 and 10.5 at one year with
spacing 20 get offsets 25 and 45. -/
theorem annotation_positions_increasing_witness :
    annotationRow [[some 10], [some (21/2)]] 0 20 = [((0, 0), 25), ((0, 1), 45)] ∧
    (25 : ℚ) < 45 := by
  have hlist : annotationRow [[some 10], [some (21/2)]] 0 20 =
      [((0, 0), 25), ((0, 1), 45)] := by
    norm_num [annotationRow, sortedYearPrices, yearPrices, List.insertionSort,
      List.orderedInsert, List.enum, List.enumFrom]
  refine ⟨hlist, ?_⟩
  exact (annotation_positions_increasing [[some 10], [some (21/2)]] 0 20
    (by norm_num)).2.1 0 1 ((0, 0), 25) ((0, 1), 45) (by norm_num)
    (by rw [hlist]; rfl) (by rw [hlist]; rfl)

/-! ## C6: segment label visibility and contrast thresholds -/

theorem segmentLabel_spec (value total : ℚ) (htot : 0 ≤ total) :
    ((segmentLabel value total).isSome = true ↔ total * (5/100) < value) ∧
    ∀ b, segmentLabel value total = some b →
      (b = true ↔ total * (15/100) < value) := by
  constructor
  · unfold segmentLabel
    by_cases h1 : 0 < value
    · rw [if_pos h1]
      by_cases h2 : total * (5/100) < value
      · simp [h2]
      · simp [h2]
    · rw [if_neg h1]
      have h0 : 0 ≤ total * (5/100) := mul_nonneg htot (by norm_num)
      simp only [Option.isSome_none, Bool.false_eq_true, false_iff]
      intro hlt
      exact h1 (lt_of_le_of_lt h0 hlt)
  · intro b hb
    unfold segmentLabel at hb
    by_cases h1 : 0 < value
    · rw [if_pos h1] at hb
      by_cases h2 : total * (5/100) < value
      · rw [if_pos h2] at hb
        injection hb with hb
        rw [← hb]
        simp
      · rw [if_neg h2] at hb; cases hb
    · rw [if_neg h1] at hb; cases hb

/-- The chart geometry a successful `plot_customer_demand` call returns. -/
theorem plot_customer_demand_ok
    (df : List CRow) (customer_name : String) (suppliers : List String)
    (demand_ylim : Option (ℚ × ℚ)) (spec : ChartSpec)
    (h : plot_customer_demand df customer_name suppliers demand_ylim = .ok spec) :
    spec = ⟨chartYears df customer_name,
            computeYAxis demand_ylim
              (codeMaxDemand (chartRows df customer_name) suppliers
                (chartYears df customer_name)),
            labelDecisions (chartRows df customer_name) suppliers
              (chartYears df customer_name)⟩ := by
  rw [plot_customer_demand] at h
  split at h
  · split at h
    · cases h
    · split at h
      · cases h
      · cases h
        rfl
  · cases h

/-- C6: in the stacked-bar demand chart with a non-negative stack total,
a segment's numeric label is drawn exactly when its value exceeds 5% of
the year's stack total, and a drawn label is light-on-dark exactly when
the value exceeds 15% of that total. -/
theorem segment_label_threshold
    (df : List CRow) (customer_name : String) (suppliers : List String)
    (demand_ylim : Option (ℚ × ℚ)) (spec : ChartSpec)
    (hok : plot_customer_demand df customer_name suppliers demand_ylim = .ok spec)
    (s : String) (y : ℤ) (ob : Option Bool)
    (hmem : (s, y, ob) ∈ spec.labels)
    (htot : 0 ≤ stackTotal (chartRows df customer_name) suppliers y) :
    (ob.isSome = true ↔
      stackTotal (chartRows df customer_name) suppliers y * (5/100) <
        supSeriesVal (chartRows df customer_name) s y) ∧
    ∀ b, ob = some b →
      (b = true ↔
        stackTotal (chartRows df customer_name) suppliers y * (15/100) <
          supSeriesVal (chartRows df customer_name) s y) := by
  rw [plot_customer_demand_ok df customer_name suppliers demand_ylim spec hok] at hmem
  rw [labelDecisions] at hmem
  rcases List.mem_flatMap.mp hmem with ⟨s', _, hmem'⟩
  rcases List.mem_map.mp hmem' with ⟨y', _, heq⟩
  injection heq with h1 h2
  injection h2 with h2 h3
  subst h1
  subst h2
  rw [← h3]
  exact segmentLabel_spec _ _ htot

def c6df : List CRow :=
  [⟨"ACME", 2022, none, [("covestro", 100), ("wanhua", 50)], []⟩]

def c6spec : ChartSpec :=
  ⟨[2022], ⟨0, 165, some 15⟩,
   [("covestro", 2022, some true), ("wanhua", 2022, some true)]⟩

/-- Witness for C6 on a concrete chart: covestro's 100 of a 150-stack
gets a drawn, light-on-dark label. -/
theorem segment_label_threshold_witness :
    ((some true : Option Bool).isSome = true ↔
      stackTotal (chartRows c6df "ACME") ["covestro", "wanhua"] 2022 * (5/100) <
        supSeriesVal (chartRows c6df "ACME") "covestro" 2022) ∧
    (true = true ↔
      stackTotal (chartRows c6df "ACME") ["covestro", "wanhua"] 2022 * (15/100) <
        supSeriesVal (chartRows c6df "ACME") "covestro" 2022) := by
  have hb1 : ("wanhua" == "covestro") = false := by decide
  have hb2 : ("covestro" == "wanhua") = false := by decide
  have htot : (0 : ℚ) ≤ stackTotal (chartRows c6df "ACME") ["covestro", "wanhua"] 2022 := by
    norm_num [stackTotal, chartRows, c6df, rowForYear, List.find?, List.filter,
      supVal, List.lookup, hb1, hb2]
  have hok : plot_customer_demand c6df "ACME" ["covestro", "wanhua"] none = .ok c6spec := by
    norm_num [plot_customer_demand, chartRows, chartYears, c6df, c6spec,
      sortedUniqueYears, List.insertionSort, List.orderedInsert, codeMaxDemand,
      maxWithDemand2025, maxWithDemand2224, demandStep2224, maxAfterBars, stackState,
      stackStep, arrMax, supSeriesVal, rowForYear, List.find?, List.filter, supVal,
      List.lookup, demandAt, computeYAxis, ceilQ_eq, labelDecisions, segmentLabel,
      stackTotal, hb1, hb2]
  have h := segment_label_threshold c6df "ACME" ["covestro", "wanhua"] none c6spec hok
    "covestro" 2022 (some true) (by decide) htot
  exact ⟨h.1, h.2 true rfl⟩

/-! ## C4 / C10: the auto-scaled demand axis

`specMaxDemand` below is the claim-side formula ("the maximum over all
years of max(stack total, drawn demand overlay value)"); the lemmas
relate it to the source's running `max_demand` fold. -/

/-- The sum of the per-supplier series values at a year (equal to
`stackTotal`, but shaped for the supplier fold). -/
def supTotal (rows : List CRow) (suppliers : List String) (y : ℤ) : ℚ :=
  (suppliers.map (fun s => supSeriesVal rows s y)).sum

theorem supTotal_eq_stackTotal (rows : List CRow) (suppliers : List String) (y : ℤ) :
    supTotal rows suppliers y = stackTotal rows suppliers y := by
  unfold supTotal stackTotal supSeriesVal
  cases h : rowForYear rows y with
  | some r => simp [h]
  | none => simp [h]

/-- The demand overlay value actually drawn at a year: for 2022-2024 a
non-missing positive cell, for 2025 any non-missing cell, nothing
elsewhere. -/
def drawnDemand (rows : List CRow) (y : ℤ) : Option ℚ :=
  if y = 2022 ∨ y = 2023 ∨ y = 2024 then
    match demandAt rows y with
    | some d => if 0 < d then some d else none
    | none => none
  else if y = 2025 then demandAt rows y
  else none

/-- Claim-side definition (spec §4.5): the maximum over all years of
`max(stack total, drawn demand overlay value)`, floored at 0 like the
source's running maximum. -/
def specMaxDemand (rows : List CRow) (suppliers : List String) (years : List ℤ) : ℚ :=
  (years.map (fun y => max (stackTotal rows suppliers y)
    ((drawnDemand rows y).getD (stackTotal rows suppliers y)))).foldl max 0

theorem le_foldl_max_init (l : List ℚ) : ∀ a b : ℚ, a ≤ b → a ≤ l.foldl max b := by
  induction l with
  | nil => intro a b h; exact h
  | cons x t ih =>
    intro a b h
    exact ih a (max b x) (le_trans h (le_max_left b x))

theorem le_foldl_max_mem (l : List ℚ) : ∀ (b x : ℚ), x ∈ l → x ≤ l.foldl max b := by
  induction l with
  | nil => intro b x hx; cases hx
  | cons h t ih =>
    intro b x hx
    rcases List.mem_cons.mp hx with rfl | hx'
    · exact le_foldl_max_init t x (max b x) (le_max_right b x)
    · exact ih (max b h) x hx'

theorem foldl_max_le (l : List ℚ) : ∀ (b X : ℚ), b ≤ X → (∀ x ∈ l, x ≤ X) →
    l.foldl max b ≤ X := by
  induction l with
  | nil => intro b X hb _; exact hb
  | cons h t ih =>
    intro b X hb hx
    exact ih (max b h) X (max_le hb (hx h (List.mem_cons_self h t)))
      (fun x hxt => hx x (List.mem_cons_of_mem h hxt))

theorem arrMax_le (l : List ℚ) (X : ℚ) (h0 : 0 ≤ X) (h : ∀ x ∈ l, x ≤ X) :
    arrMax l ≤ X := by
  cases l with
  | nil => exact h0
  | cons a t =>
    exact foldl_max_le t a X (h a (List.mem_cons_self a t))
      (fun x hx => h x (List.mem_cons_of_mem a hx))

theorem le_arrMax_of_mem (l : List ℚ) (x : ℚ) (hx : x ∈ l) : x ≤ arrMax l := by
  cases l with
  | nil => cases hx
  | cons a t =>
    rcases List.mem_cons.mp hx with rfl | hx'
    · exact le_foldl_max_init t x x le_rfl
    · exact le_foldl_max_mem t a x hx'

theorem foldl_max_map_mono (ys : List ℤ) (f g : ℤ → ℚ) :
    ∀ (a b : ℚ), a ≤ b → (∀ y ∈ ys, f y ≤ g y) →
      (ys.map f).foldl max a ≤ (ys.map g).foldl max b := by
  induction ys with
  | nil => intro a b hab _; exact hab
  | cons y t ih =>
    intro a b hab h
    simp only [List.map_cons, List.foldl_cons]
    exact ih (max a (f y)) (max b (g y))
      (max_le_max hab (h y (List.mem_cons_self y t)))
      (fun z hz => h z (List.mem_cons_of_mem y hz))

theorem arrMax_map_mono (ys : List ℤ) (f g : ℤ → ℚ)
    (h : ∀ y ∈ ys, f y ≤ g y) :
    arrMax (ys.map f) ≤ arrMax (ys.map g) := by
  cases ys with
  | nil => exact le_rfl
  | cons y t =>
    simp only [List.map_cons, arrMax]
    exact foldl_max_map_mono t f g (f y) (g y) (h y (List.mem_cons_self y t))
      (fun z hz => h z (List.mem_cons_of_mem y hz))

theorem arrMax_map_zero (ys : List ℤ) : arrMax (ys.map (fun _ => (0 : ℚ))) = 0 := by
  cases ys with
  | nil => rfl
  | cons y t =>
    simp only [List.map_cons, arrMax]
    induction t with
    | nil => rfl
    | cons z t' ih => simpa using ih

theorem zipWith_add_map (ys : List ℤ) (f g : ℤ → ℚ) :
    List.zipWith (· + ·) (ys.map f) (ys.map g) = ys.map (fun y => f y + g y) := by
  induction ys with
  | nil => rfl
  | cons y t ih => simp [ih]

theorem stackState_snd (rows : List CRow) (ys : List ℤ) :
    ∀ (sups : List String) (f : ℤ → ℚ) (m : ℚ),
      (∀ s ∈ sups, ∀ y ∈ ys, 0 ≤ supSeriesVal rows s y) →
      m = max 0 (arrMax (ys.map f)) →
      (sups.foldl (stackStep rows ys) (ys.map f, m)).2 =
        max 0 (arrMax (ys.map (fun y => f y + supTotal rows sups y))) := by
  intro sups
  induction sups with
  | nil =>
    intro f m _ hm
    have hcongr : ys.map (fun y => f y + supTotal rows [] y) = ys.map f :=
      List.map_congr_left (fun y _ => by simp [supTotal])
    rw [List.foldl_nil, hcongr, hm]
  | cons s rest ih =>
    intro f m hnn hm
    rw [List.foldl_cons]
    show (rest.foldl (stackStep rows ys)
      (stackStep rows ys (ys.map f, m) s)).2 = _
    rw [stackStep, zipWith_add_map]
    have hmono : arrMax (ys.map f) ≤
        arrMax (ys.map (fun y => f y + supSeriesVal rows s y)) := by
      apply arrMax_map_mono
      intro y hy
      have := hnn s (List.mem_cons_self s rest) y hy
      linarith
    have hm' : max m (arrMax (ys.map (fun y => f y + supSeriesVal rows s y))) =
        max 0 (arrMax (ys.map (fun y => f y + supSeriesVal rows s y))) := by
      rw [hm, max_assoc, max_eq_right hmono]
    rw [hm']
    rw [ih (fun y => f y + supSeriesVal rows s y) _
      (fun s' hs' => hnn s' (List.mem_cons_of_mem s hs')) rfl]
    congr 1
    apply congrArg
    apply List.map_congr_left
    intro y _
    simp [supTotal, add_assoc]

theorem maxAfterBars_eq (rows : List CRow) (sups : List String) (ys : List ℤ)
    (hnn : ∀ s ∈ sups, ∀ y ∈ ys, 0 ≤ supSeriesVal rows s y) :
    maxAfterBars rows sups ys =
      max 0 (arrMax (ys.map (fun y => stackTotal rows sups y))) := by
  unfold maxAfterBars stackState
  rw [stackState_snd rows ys sups (fun _ => 0) 0 hnn
    (by rw [arrMax_map_zero, max_self])]
  congr 1
  apply congrArg
  apply List.map_congr_left
  intro y _
  rw [zero_add, supTotal_eq_stackTotal]

theorem demandStep2224_ge (rows : List CRow) (m : ℚ) (y : ℤ) :
    m ≤ demandStep2224 rows m y := by
  unfold demandStep2224
  split
  · cases demandAt rows y with
    | some d =>
      by_cases hd : 0 < d
      · simp only [hd, if_true, ite_true]
        exact le_max_left m d
      · simp [hd]
    | none => exact le_rfl
  · exact le_rfl

theorem maxWith2224_ge (rows : List CRow) (ys : List ℤ) : ∀ m : ℚ,
    m ≤ maxWithDemand2224 rows ys m := by
  induction ys with
  | nil => intro m; exact le_rfl
  | cons y t ih =>
    intro m
    unfold maxWithDemand2224 at ih ⊢
    rw [List.foldl_cons]
    exact le_trans (demandStep2224_ge rows m y) (ih _)

theorem maxWith2224_le (rows : List CRow) (ys : List ℤ) : ∀ (m X : ℚ), m ≤ X →
    (∀ y ∈ ys, (y = 2022 ∨ y = 2023 ∨ y = 2024) →
      ∀ d, demandAt rows y = some d → 0 < d → d ≤ X) →
    maxWithDemand2224 rows ys m ≤ X := by
  induction ys with
  | nil => intro m X hm _; exact hm
  | cons y t ih =>
    intro m X hm hd
    unfold maxWithDemand2224 at ih ⊢
    rw [List.foldl_cons]
    apply ih _ X _ (fun z hz => hd z (List.mem_cons_of_mem y hz))
    unfold demandStep2224
    split
    · cases hda : demandAt rows y with
      | some d =>
        by_cases hdp : 0 < d
        · simp only [hdp, if_true, ite_true]
          exact max_le hm (hd y (List.mem_cons_self y t) (by assumption) d hda hdp)
        · simp [hdp, hm]
      | none => exact hm
    · exact hm

theorem maxWith2224_contains (rows : List CRow) (ys : List ℤ) : ∀ (m d : ℚ) (y : ℤ),
    y ∈ ys → (y = 2022 ∨ y = 2023 ∨ y = 2024) → demandAt rows y = some d → 0 < d →
    d ≤ maxWithDemand2224 rows ys m := by
  induction ys with
  | nil => intro m d y hy; cases hy
  | cons z t ih =>
    intro m d y hy hcond hda hdp
    unfold maxWithDemand2224 at ih ⊢
    rw [List.foldl_cons]
    rcases List.mem_cons.mp hy with rfl | hy'
    · have hstep : d ≤ demandStep2224 rows m y := by
        unfold demandStep2224
        rw [if_pos hcond, hda]
        show d ≤ if 0 < d then max m d else m
        rw [if_pos hdp]
        exact le_max_right m d
      exact le_trans hstep (maxWith2224_ge rows t _)
    · exact ih _ d y hy' hcond hda hdp

theorem maxWith2025_ge (rows : List CRow) (ys : List ℤ) (m : ℚ) :
    m ≤ maxWithDemand2025 rows ys m := by
  unfold maxWithDemand2025
  split
  · cases demandAt rows 2025 with
    | some d => exact le_max_left m d
    | none => exact le_rfl
  · exact le_rfl

theorem maxWith2025_le (rows : List CRow) (ys : List ℤ) (m X : ℚ) (hm : m ≤ X)
    (h25 : ∀ d, (2025 : ℤ) ∈ ys → demandAt rows 2025 = some d → d ≤ X) :
    maxWithDemand2025 rows ys m ≤ X := by
  unfold maxWithDemand2025
  split
  · cases hda : demandAt rows 2025 with
    | some d => exact max_le hm (h25 d (by assumption) hda)
    | none => exact hm
  · exact hm

theorem maxWith2025_contains (rows : List CRow) (ys : List ℤ) (m d : ℚ)
    (h25 : (2025 : ℤ) ∈ ys) (hda : demandAt rows 2025 = some d) :
    d ≤ maxWithDemand2025 rows ys m := by
  unfold maxWithDemand2025
  rw [if_pos h25, hda]
  exact le_max_right m d

theorem specMaxDemand_nonneg (rows : List CRow) (sups : List String) (ys : List ℤ) :
    0 ≤ specMaxDemand rows sups ys :=
  le_foldl_max_init _ 0 0 le_rfl

theorem stackTotal_le_specMax (rows : List CRow) (sups : List String) (ys : List ℤ)
    (y : ℤ) (hy : y ∈ ys) :
    stackTotal rows sups y ≤ specMaxDemand rows sups ys := by
  refine le_trans (le_max_left _ ((drawnDemand rows y).getD (stackTotal rows sups y))) ?_
  exact le_foldl_max_mem _ 0 _ (List.mem_map_of_mem _ hy)

theorem drawn_le_specMax (rows : List CRow) (sups : List String) (ys : List ℤ)
    (y : ℤ) (hy : y ∈ ys) (d : ℚ) (hd : drawnDemand rows y = some d) :
    d ≤ specMaxDemand rows sups ys := by
  have h1 : d ≤ max (stackTotal rows sups y)
      ((drawnDemand rows y).getD (stackTotal rows sups y)) := by
    rw [hd]
    exact le_max_right _ d
  exact le_trans h1 (le_foldl_max_mem _ 0 _ (List.mem_map_of_mem _ hy))

/-- The source's final `max_demand` equals the claim's formula whenever
the supplier values drawn for the chart's years are non-negative. -/
theorem codeMaxDemand_eq_specMax (rows : List CRow) (sups : List String) (ys : List ℤ)
    (hnn : ∀ s ∈ sups, ∀ y ∈ ys, 0 ≤ supSeriesVal rows s y) :
    codeMaxDemand rows sups ys = specMaxDemand rows sups ys := by
  have hmab : maxAfterBars rows sups ys =
      max 0 (arrMax (ys.map (fun y => stackTotal rows sups y))) :=
    maxAfterBars_eq rows sups ys hnn
  apply le_antisymm
  · unfold codeMaxDemand
    apply maxWith2025_le
    · apply maxWith2224_le
      · rw [hmab]
        apply max_le (specMaxDemand_nonneg rows sups ys)
        apply arrMax_le _ _ (specMaxDemand_nonneg rows sups ys)
        intro x hx
        rcases List.mem_map.mp hx with ⟨y, hy, rfl⟩
        exact stackTotal_le_specMax rows sups ys y hy
      · intro y hy hcond d hda hdp
        apply drawn_le_specMax rows sups ys y hy
        rw [drawnDemand, if_pos hcond, hda]
        show (if 0 < d then some d else none) = some d
        rw [if_pos hdp]
    · intro d h25 hda
      apply drawn_le_specMax rows sups ys 2025 h25
      rw [drawnDemand, if_neg (by norm_num), if_pos rfl, hda]
  · apply foldl_max_le
    · have h0 : (0 : ℚ) ≤ maxAfterBars rows sups ys := by
        rw [hmab]; exact le_max_left 0 _
      exact le_trans h0 (le_trans (maxWith2224_ge rows ys _) (maxWith2025_ge rows ys _))
    · intro x hx
      rcases List.mem_map.mp hx with ⟨y, hy, rfl⟩
      have hT : stackTotal rows sups y ≤ codeMaxDemand rows sups ys := by
        have h1 : stackTotal rows sups y ≤
            arrMax (ys.map (fun y => stackTotal rows sups y)) :=
          le_arrMax_of_mem _ _ (List.mem_map_of_mem _ hy)
        have h2 : stackTotal rows sups y ≤ maxAfterBars rows sups ys := by
          rw [hmab]
          exact le_trans h1 (le_max_right 0 _)
        exact le_trans h2
          (le_trans (maxWith2224_ge rows ys _) (maxWith2025_ge rows ys _))
      apply max_le hT
      cases hdr : drawnDemand rows y with
      | none => simpa using hT
      | some d =>
        rw [Option.getD_some]
        rw [drawnDemand] at hdr
        by_cases hcond : y = 2022 ∨ y = 2023 ∨ y = 2024
        · rw [if_pos hcond] at hdr
          cases hda : demandAt rows y with
          | none => rw [hda] at hdr; cases hdr
          | some d' =>
            rw [hda] at hdr
            dsimp only at hdr
            by_cases hdp : 0 < d'
            · rw [if_pos hdp] at hdr
              injection hdr with hdr
              rw [← hdr]
              exact le_trans
                (maxWith2224_contains rows ys _ d' y hy hcond hda hdp)
                (maxWith2025_ge rows ys _)
            · rw [if_neg hdp] at hdr; cases hdr
        · rw [if_neg hcond] at hdr
          by_cases h25 : y = 2025
          · subst h25
            rw [if_pos rfl] at hdr
            exact maxWith2025_contains rows ys _ d hy hdr
          · rw [if_neg h25] at hdr; cases hdr

theorem plot_customer_demand_ok_of_mem
    (df : List CRow) (customer_name : String) (suppliers : List String)
    (demand_ylim : Option (ℚ × ℚ))
    (hmem : customer_name ∈ df.map (fun r => r.customer)) :
    plot_customer_demand df customer_name suppliers demand_ylim =
      .ok ⟨chartYears df customer_name,
           computeYAxis demand_ylim
             (codeMaxDemand (chartRows df customer_name) suppliers
               (chartYears df customer_name)),
           labelDecisions (chartRows df customer_name) suppliers
             (chartYears df customer_name)⟩ := by
  rcases List.mem_map.mp hmem with ⟨r, hr, hcr⟩
  have hrmem : r ∈ chartRows df customer_name :=
    List.mem_filter.mpr ⟨hr, by simp [hcr]⟩
  have hymem : r.year ∈ chartYears df customer_name := by
    rw [chartYears, sortedUniqueYears, List.mem_insertionSort, List.mem_dedup]
    exact List.mem_map_of_mem _ hrmem
  rw [plot_customer_demand, if_pos hmem,
    if_neg (by simp [List.isEmpty_iff, List.ne_nil_of_mem hrmem]),
    if_neg (by simp [List.isEmpty_iff, List.ne_nil_of_mem hymem])]

theorem plot_with_price_ok_of_mem
    (df : List CRow) (customer_name : String) (suppliers price_columns : List String)
    (demand_ylim : Option (ℚ × ℚ)) (annotation_spacing : ℚ)
    (hmem : customer_name ∈ df.map (fun r => r.customer)) :
    plot_customer_demand_with_price df customer_name suppliers price_columns
        demand_ylim annotation_spacing =
      .ok ⟨chartYears df customer_name,
           computeYAxis demand_ylim
             (codeMaxDemand (chartRows df customer_name) suppliers
               (chartYears df customer_name)),
           calculate_annotation_positions
             (priceDataByColumn (chartRows df customer_name)
               (chartYears df customer_name) price_columns)
             (chartYears df customer_name).length annotation_spacing⟩ := by
  rcases List.mem_map.mp hmem with ⟨r, hr, hcr⟩
  have hrmem : r ∈ chartRows df customer_name :=
    List.mem_filter.mpr ⟨hr, by simp [hcr]⟩
  have hymem : r.year ∈ chartYears df customer_name := by
    rw [chartYears, sortedUniqueYears, List.mem_insertionSort, List.mem_dedup]
    exact List.mem_map_of_mem _ hrmem
  rw [plot_customer_demand_with_price, if_pos hmem,
    if_neg (by simp [List.isEmpty_iff, List.ne_nil_of_mem hrmem]),
    if_neg (by simp [List.isEmpty_iff, List.ne_nil_of_mem hymem])]

/-- C4: a caller-supplied y-limit pair is used unchanged; otherwise,
when the supplier values of the chart are non-negative and the observed
maximum `M = max over years of max(stack total, drawn demand)` is
positive, the auto-scaled axis is `(0, 1.1 * M)` with tick spacing
`ceil(M / 10)`. -/
theorem yaxis_override_and_autoscale
    (df : List CRow) (customer_name : String) (suppliers : List String) (lo hi : ℚ)
    (hmem : customer_name ∈ df.map (fun r => r.customer))
    (hnn : ∀ s ∈ suppliers, ∀ y ∈ chartYears df customer_name,
      0 ≤ supSeriesVal (chartRows df customer_name) s y)
    (hpos : 0 < specMaxDemand (chartRows df customer_name) suppliers
      (chartYears df customer_name)) :
    (plot_customer_demand df customer_name suppliers (some (lo, hi))).map
        (fun spec => spec.yaxis) = .ok ⟨lo, hi, none⟩ ∧
    (plot_customer_demand df customer_name suppliers none).map
        (fun spec => spec.yaxis) =
      .ok ⟨0,
           specMaxDemand (chartRows df customer_name) suppliers
               (chartYears df customer_name) * (11/10),
           some (ceilQ (specMaxDemand (chartRows df customer_name) suppliers
               (chartYears df customer_name) / 10))⟩ := by
  have hcode := codeMaxDemand_eq_specMax (chartRows df customer_name) suppliers
    (chartYears df customer_name) hnn
  constructor
  · rw [plot_customer_demand_ok_of_mem df customer_name suppliers (some (lo, hi)) hmem]
    rfl
  · rw [plot_customer_demand_ok_of_mem df customer_name suppliers none hmem]
    show Except.ok (computeYAxis none
      (codeMaxDemand (chartRows df customer_name) suppliers
        (chartYears df customer_name))) = _
    rw [hcode]
    simp only [computeYAxis]
    rw [if_pos hpos]
    have hceil : 0 < ceilQ (specMaxDemand (chartRows df customer_name) suppliers
        (chartYears df customer_name) / 10) := by
      rw [ceilQ_eq]
      exact Int.ceil_pos.mpr (by positivity)
    rw [max_eq_right (by omega)]

def c4df : List CRow :=
  [⟨"ACME", 2022, none, [("covestro", 100), ("wanhua", 50)], []⟩,
   ⟨"ACME", 2025, some 300, [("covestro", 0), ("wanhua", 0)], []⟩]

/-- Witness for C4: scenario A, a 2025 demand-only value of 300 above
all stack totals auto-scales the y-limit to 330 with tick spacing 30; a
caller-supplied limit wins. -/
theorem yaxis_override_and_autoscale_witness :
    (plot_customer_demand c4df "ACME" ["covestro", "wanhua"] (some (0, 500))).map
        (fun spec => spec.yaxis) = .ok ⟨0, 500, none⟩ ∧
    (plot_customer_demand c4df "ACME" ["covestro", "wanhua"] none).map
        (fun spec => spec.yaxis) = .ok ⟨0, 330, some 30⟩ := by
  have hb1 : ("wanhua" == "covestro") = false := by decide
  have hb2 : ("covestro" == "wanhua") = false := by decide
  have hyears : chartYears c4df "ACME" = [2022, 2025] := by decide
  have hy22 : ((2022 : ℤ) == 2025) = false := by decide
  have hspec : specMaxDemand (chartRows c4df "ACME") ["covestro", "wanhua"]
      (chartYears c4df "ACME") = 300 := by
    rw [hyears]
    norm_num [specMaxDemand, chartRows, c4df, stackTotal, drawnDemand, demandAt,
      rowForYear, List.find?, List.filter, supVal, List.lookup, hb1, hb2, hy22]
  have hnn : ∀ s ∈ ["covestro", "wanhua"], ∀ y ∈ chartYears c4df "ACME",
      0 ≤ supSeriesVal (chartRows c4df "ACME") s y := by
    intro s hs y hy
    rw [hyears] at hy
    simp only [List.mem_cons, List.mem_singleton, List.not_mem_nil, or_false] at hs hy
    rcases hs with rfl | rfl <;> rcases hy with rfl | rfl <;>
      norm_num [supSeriesVal, chartRows, c4df, rowForYear, List.find?, List.filter,
        supVal, List.lookup, hb1, hb2, hy22]
  have h := yaxis_override_and_autoscale c4df "ACME" ["covestro", "wanhua"] 0 500
    (by decide) hnn (by rw [hspec]; norm_num)
  rw [hspec] at h
  have h330 : (300 : ℚ) * (11/10) = 330 := by norm_num
  have hceil : ceilQ ((300 : ℚ) / 10) = 30 := by
    rw [ceilQ_eq]
    norm_num
  rw [h330, hceil] at h
  exact h

/-! ### C10: the zero-maximum default -/

theorem stackState_snd_nonpos (rows : List CRow) (ys : List ℤ) :
    ∀ (sups : List String) (f : ℤ → ℚ),
      (∀ s ∈ sups, ∀ y ∈ ys, supSeriesVal rows s y ≤ 0) →
      (∀ y ∈ ys, f y ≤ 0) →
      (sups.foldl (stackStep rows ys) (ys.map f, 0)).2 = 0 := by
  intro sups
  induction sups with
  | nil => intro f _ _; rfl
  | cons s rest ih =>
    intro f hnp hf
    rw [List.foldl_cons]
    show (rest.foldl (stackStep rows ys) (stackStep rows ys (ys.map f, 0) s)).2 = 0
    rw [stackStep, zipWith_add_map]
    have hf' : ∀ y ∈ ys, f y + supSeriesVal rows s y ≤ 0 := fun y hy =>
      add_nonpos (hf y hy) (hnp s (List.mem_cons_self s rest) y hy)
    have hmax : max (0 : ℚ)
        (arrMax (ys.map (fun y => f y + supSeriesVal rows s y))) = 0 := by
      apply max_eq_left
      apply arrMax_le _ _ le_rfl
      intro x hx
      rcases List.mem_map.mp hx with ⟨y, hy, rfl⟩
      exact hf' y hy
    rw [hmax]
    exact ih (fun y => f y + supSeriesVal rows s y)
      (fun s' hs' => hnp s' (List.mem_cons_of_mem s hs')) hf'

theorem maxWith2224_id (rows : List CRow) (ys : List ℤ)
    (h : ∀ y ∈ ys, ∀ d, demandAt rows y = some d → ¬ 0 < d) :
    ∀ m, maxWithDemand2224 rows ys m = m := by
  induction ys with
  | nil => intro m; rfl
  | cons y t ih =>
    intro m
    unfold maxWithDemand2224 at ih ⊢
    rw [List.foldl_cons]
    have hstep : demandStep2224 rows m y = m := by
      unfold demandStep2224
      split
      · cases hda : demandAt rows y with
        | some d =>
          show (if 0 < d then max m d else m) = m
          rw [if_neg (h y (List.mem_cons_self y t) d hda)]
        | none => rfl
      · rfl
    rw [hstep]
    exact ih (fun z hz d hda => h z (List.mem_cons_of_mem y hz) d hda) m

theorem codeMaxDemand_zero (rows : List CRow) (sups : List String) (ys : List ℤ)
    (hnp : ∀ s ∈ sups, ∀ y ∈ ys, supSeriesVal rows s y ≤ 0)
    (hd : ∀ y ∈ ys, ∀ d, demandAt rows y = some d → d ≤ 0) :
    codeMaxDemand rows sups ys = 0 := by
  have h1 : maxAfterBars rows sups ys = 0 := by
    unfold maxAfterBars stackState
    exact stackState_snd_nonpos rows ys sups (fun _ => 0) hnp (fun y _ => le_rfl)
  unfold codeMaxDemand
  rw [h1, maxWith2224_id rows ys
    (fun y hy d hda hpos => absurd (hd y hy d hda) (not_le.mpr hpos)) 0]
  unfold maxWithDemand2025
  split
  · cases hda : demandAt rows 2025 with
    | some d => exact max_eq_left (hd 2025 (by assumption) d hda)
    | none => rfl
  · rfl

/-- C10: with no y-limit override and every supplier value and drawn
demand value zero, missing or non-positive, the observed maximum is 0,
a default of 100 is substituted, and both chart entry points set the
demand axis to `(0, 110)` with tick spacing 10. -/
theorem yaxis_default_when_observed_zero
    (df : List CRow) (customer_name : String) (suppliers price_columns : List String)
    (annotation_spacing : ℚ)
    (hmem : customer_name ∈ df.map (fun r => r.customer))
    (hsup : ∀ s ∈ suppliers, ∀ y ∈ chartYears df customer_name,
      supSeriesVal (chartRows df customer_name) s y ≤ 0)
    (hdem : ∀ y ∈ chartYears df customer_name, ∀ d,
      demandAt (chartRows df customer_name) y = some d → d ≤ 0) :
    (plot_customer_demand df customer_name suppliers none).map
        (fun spec => spec.yaxis) = .ok ⟨0, 110, some 10⟩ ∧
    (plot_customer_demand_with_price df customer_name suppliers price_columns
        none annotation_spacing).map (fun spec => spec.yaxis) =
      .ok ⟨0, 110, some 10⟩ := by
  have hzero := codeMaxDemand_zero (chartRows df customer_name) suppliers
    (chartYears df customer_name) hsup hdem
  have hax : computeYAxis none
      (codeMaxDemand (chartRows df customer_name) suppliers
        (chartYears df customer_name)) = ⟨0, 110, some 10⟩ := by
    rw [hzero]
    show YAxis.mk 0 ((if (0 : ℚ) < 0 then (0 : ℚ) else 100) * (11/10))
      (some (max 1 (ceilQ ((if (0 : ℚ) < 0 then (0 : ℚ) else 100) / 10)))) = _
    rw [if_neg (lt_irrefl 0)]
    have hc : ceilQ ((100 : ℚ) / 10) = 10 := by
      rw [ceilQ_eq]
      norm_num
    rw [hc]
    norm_num
  constructor
  · rw [plot_customer_demand_ok_of_mem df customer_name suppliers none hmem]
    show Except.ok (computeYAxis none _) = _
    rw [hax]
  · rw [plot_with_price_ok_of_mem df customer_name suppliers price_columns none
      annotation_spacing hmem]
    show Except.ok (computeYAxis none _) = _
    rw [hax]

def c10df : List CRow := [⟨"ACME", 2022, some (-5), [("covestro", 0)], []⟩]

/-- Witness for C10: one year with supplier value 0 and a negative
demand cell yields the default axis `(0, 110)` on both entry points. -/
theorem yaxis_default_when_observed_zero_witness :
    (plot_customer_demand c10df "ACME" ["covestro"] none).map
        (fun spec => spec.yaxis) = .ok ⟨0, 110, some 10⟩ ∧
    (plot_customer_demand_with_price c10df "ACME" ["covestro"] ["pp"] none 20).map
        (fun spec => spec.yaxis) = .ok ⟨0, 110, some 10⟩ := by
  have hyears : chartYears c10df "ACME" = [2022] := by decide
  have hda : demandAt (chartRows c10df "ACME") 2022 = some (-5) := by
    norm_num [demandAt, chartRows, c10df, rowForYear, List.find?, List.filter]
  apply yaxis_default_when_observed_zero c10df "ACME" ["covestro"] ["pp"] 20 (by decide)
  · intro s hs y hy
    rw [hyears] at hy
    simp only [List.mem_singleton] at hs hy
    subst hs
    subst hy
    norm_num [supSeriesVal, chartRows, c10df, rowForYear, List.find?, List.filter,
      supVal, List.lookup]
  · intro y hy d hdd
    rw [hyears] at hy
    simp only [List.mem_singleton] at hy
    subst hy
    rw [hda] at hdd
    injection hdd with hdd
    rw [← hdd]
    norm_num

end DataAnalysis
